import Mathlib

/-!
Shallow embedding of the currency-swap form logic from
`src/CurrencySwapForm.tsx`.  JavaScript numbers are modelled as `ℚ`
(the amounts and prices the claims quantify over are finite decimals);
JavaScript strings as `String`; the JS `Map<string, number>` as an
insertion-ordered association list `List (String × ℚ)`.
-/

set_option autoImplicit false

/-- The raw feed record `RawCryptoData { currency, date, price }`. -/
structure RawCryptoData where
  currency : String
  date : String
  price : ℚ
deriving DecidableEq, Repr

/-- The derived entity `CryptoCurrency { code, name, priceInUSD }`. -/
structure CryptoCurrency where
  code : String
  name : String
  priceInUSD : ℚ
deriving DecidableEq, Repr

/-- The constant `MAX_AMOUNT = 1_000_000_000_000` (1 trillion). -/
def MAX_AMOUNT : ℚ := 1000000000000

/-- Value of a decimal digit list, most significant first. -/
def digitsToNat (l : List Char) : Nat :=
  l.foldl (fun a c => a * 10 + (c.toNat - '0'.toNat)) 0

/-- JavaScript whitespace characters skipped by `parseFloat`. -/
def jsWhitespace (c : Char) : Bool :=
  c = ' ' || c = '\t' || c = '\n' || c = '\r' || c = '\x0b' || c = '\x0c'

/-- The syntactic pieces of a JS decimal literal: sign, the digits of the
integer and fraction parts read as one number, the number of fraction
digits, and the exponent's sign and magnitude. -/
structure NumParts where
  neg : Bool
  mant : Nat
  fracLen : Nat
  expNeg : Bool
  expMag : Nat
deriving DecidableEq, Repr

/-- The scanning phase of JS `parseFloat`: skip leading whitespace, an
optional sign, then the longest decimal-literal prefix
`digits [. digits] [e|E [sign] digits]` (a fraction-only literal
`. digits …` also counts).  `none` models `NaN` (no valid numeric
prefix); an `e` not followed by digits is ignored, as in JS prefix
parsing (`"1e"` parses as `1`). -/
def parseParts (s : String) : Option NumParts :=
  let l0 := s.toList.dropWhile jsWhitespace
  let sneg : Bool := match l0 with
    | '-' :: _ => true
    | _ => false
  let l : List Char := match l0 with
    | '-' :: rest => rest
    | '+' :: rest => rest
    | _ => l0
  let ip := l.takeWhile Char.isDigit
  let l1 := l.drop ip.length
  let fp : List Char := match l1 with
    | '.' :: rest => rest.takeWhile Char.isDigit
    | _ => []
  let l2 : List Char := match l1 with
    | '.' :: rest => rest.drop fp.length
    | _ => l1
  if ip.isEmpty && fp.isEmpty then none
  else
    let ex : Bool × Nat := match l2 with
      | 'e' :: '-' :: ds => (true, digitsToNat (ds.takeWhile Char.isDigit))
      | 'e' :: '+' :: ds => (false, digitsToNat (ds.takeWhile Char.isDigit))
      | 'e' :: ds => (false, digitsToNat (ds.takeWhile Char.isDigit))
      | 'E' :: '-' :: ds => (true, digitsToNat (ds.takeWhile Char.isDigit))
      | 'E' :: '+' :: ds => (false, digitsToNat (ds.takeWhile Char.isDigit))
      | 'E' :: ds => (false, digitsToNat (ds.takeWhile Char.isDigit))
      | _ => (false, 0)
    some ⟨sneg, digitsToNat (ip ++ fp), fp.length, ex.1, ex.2⟩

/-- The numeric value of parsed literal pieces:
`±(mant / 10^fracLen) · 10^(±expMag)`. -/
def partsVal (p : NumParts) : ℚ :=
  (if p.neg then (-1 : ℚ) else 1) * ((p.mant : ℚ) / (10 : ℚ) ^ p.fracLen) *
    (if p.expNeg then 1 / (10 : ℚ) ^ p.expMag else (10 : ℚ) ^ p.expMag)

/-- JS `parseFloat`, as scanning followed by evaluation; `none` is `NaN`.
The non-finite `Infinity` literal is outside this rational model. -/
def parseFloat (s : String) : Option ℚ :=
  (parseParts s).map partsVal

/-- Left-pad a digit string with zeros to length 8. -/
def padTo8 (s : String) : String :=
  String.mk (List.replicate (8 - s.length) '0') ++ s

/-- Render a scaled integer `n` (the value times `10^8`) with exactly 8
digits after the decimal point. -/
def fixedDigits (n : Int) : String :=
  (if n < 0 then "-" else "") ++
    Nat.repr (n.natAbs / 100000000) ++ "." ++ padTo8 (Nat.repr (n.natAbs % 100000000))

/-- JS `Number.prototype.toFixed(8)`: the decimal string with exactly 8 digits
after the point, choosing the integer numerator closest to `q * 10^8` and
the larger one on ties (ECMAScript `toFixed`). -/
def toFixed8 (q : ℚ) : String :=
  fixedDigits ⌊q * 100000000 + 1 / 2⌋

/-- JS `Map.prototype.set`: overwrite in place if the key is present,
else append a new entry (insertion order preserved). -/
def mapSet (m : List (String × ℚ)) (k : String) (v : ℚ) : List (String × ℚ) :=
  if m.any (fun p => p.1 = k) then
    m.map (fun p => if p.1 = k then (k, v) else p)
  else m ++ [(k, v)]

/-- JS `Map.prototype.get`: `none` models `undefined`. -/
def mapGet (m : List (String × ℚ)) (k : String) : Option ℚ :=
  (m.find? (fun p => p.1 = k)).map Prod.snd

/-- The price-map construction inside `fetchCryptoData`:
`rawData.forEach((data) => { if (data.price > 0) pricesMap.set(data.currency, data.price) })`. -/
def buildPricesMap (raw : List RawCryptoData) : List (String × ℚ) :=
  raw.foldl (fun m d => if 0 < d.price then mapSet m d.currency d.price else m) []

/-- The derived currency list inside `fetchCryptoData`:
`Array.from(pricesMap.entries()).map(([code, price]) => ({ code, name: code, priceInUSD: price }))`. -/
def processedCurrencies (m : List (String × ℚ)) : List CryptoCurrency :=
  m.map (fun p => { code := p.1, name := p.1, priceInUSD := p.2 })

/-- Result of one run of `calculateAmountToReceive`: the two state updates. -/
structure CalcResult where
  amountToReceive : String
  exchangeRate : ℚ
deriving DecidableEq, Repr

/-- The handler `calculateAmountToReceive` (CurrencySwapForm.tsx lines 151–174).
`fromPrice && toPrice` is JS truthiness: defined and nonzero. -/
def calculateAmountToReceive (amountToSend : String)
    (fromCurrency toCurrency : Option CryptoCurrency)
    (cryptoPricesInUSD : List (String × ℚ)) : CalcResult :=
  match fromCurrency, toCurrency, parseFloat amountToSend with
  | some f, some t, some amount =>
    if 0 < amount ∧ amount ≤ MAX_AMOUNT ∧ f.code ≠ t.code then
      match mapGet cryptoPricesInUSD f.code, mapGet cryptoPricesInUSD t.code with
      | some fromPrice, some toPrice =>
        if fromPrice ≠ 0 ∧ toPrice ≠ 0 then
          { amountToReceive := toFixed8 (amount * (toPrice / fromPrice)),
            exchangeRate := toPrice / fromPrice }
        else { amountToReceive := "0.00", exchangeRate := 0 }
      | _, _ => { amountToReceive := "0.00", exchangeRate := 0 }
    else { amountToReceive := "0.00", exchangeRate := 0 }
  | _, _, _ => { amountToReceive := "0.00", exchangeRate := 0 }

/-- Result of one run of `validateForm`: the three error-message fields it
writes (`amountError`, `fromCurrencyError`, `toCurrencyError.current`) and
its boolean return value. -/
structure ValidationResult where
  amountError : String
  fromCurrencyError : String
  toCurrencyError : String
  isValid : Bool
deriving DecidableEq, Repr

/-- The ceiling message ``Amount cannot exceed ${MAX_AMOUNT.toLocaleString()}.``
with the en-US grouping of 1 000 000 000 000. -/
def ceilingMessage : String := "Amount cannot exceed 1,000,000,000,000."

/-- The validator `validateForm` (CurrencySwapForm.tsx lines 107–149): sequential per-field
checks, then the cross-field same-currency check which overwrites both
currency errors.  `isNaN(amount)` is the `none` parse result. -/
def validateForm (amountToSend : String)
    (fromCurrency toCurrency : Option CryptoCurrency) : ValidationResult :=
  let amountRes : String × Bool :=
    if amountToSend = "" then ("Amount is required.", false)
    else
      match parseFloat amountToSend with
      | none => ("Please enter a positive amount.", false)
      | some amount =>
        if amount ≤ 0 then ("Please enter a positive amount.", false)
        else if MAX_AMOUNT < amount then (ceilingMessage, false)
        else ("", true)
  let fromRes : String × Bool :=
    match fromCurrency with
    | none => ("Please select a \"From\" currency.", false)
    | some _ => ("", true)
  let toRes : String × Bool :=
    match toCurrency with
    | none => ("Please select a \"To\" currency.", false)
    | some _ => ("", true)
  match fromCurrency, toCurrency with
  | some f, some t =>
    if f.code = t.code then
      { amountError := amountRes.1, fromCurrencyError := "Currencies cannot be the same.",
        toCurrencyError := "Currencies cannot be the same.", isValid := false }
    else
      { amountError := amountRes.1, fromCurrencyError := fromRes.1,
        toCurrencyError := toRes.1, isValid := amountRes.2 && fromRes.2 && toRes.2 }
  | _, _ =>
    { amountError := amountRes.1, fromCurrencyError := fromRes.1,
      toCurrencyError := toRes.1, isValid := amountRes.2 && fromRes.2 && toRes.2 }

/-- The aggregate submit-enabling predicate `isFormValid`
(CurrencySwapForm.tsx lines 228–236): it reads the current field error
strings (JS `!err` is emptiness) alongside its own re-checks. -/
def isFormValid (amountToSend : String)
    (fromCurrency toCurrency : Option CryptoCurrency)
    (amountError fromCurrencyError toCurrencyError : String) : Bool :=
  (match fromCurrency, toCurrency with
   | some f, some t => f.code != t.code
   | _, _ => false) &&
  (match parseFloat amountToSend with
   | some amount => decide (0 < amount)
   | none => false) &&
  (match parseFloat amountToSend with
   | some amount => decide (amount ≤ MAX_AMOUNT)
   | none => false) &&
  amountError == "" && fromCurrencyError == "" && toCurrencyError == ""

/-- The currency-selection part of the component state, the part
`handleSwapCurrencies` acts on. -/
structure SwapState where
  fromCurrency : Option CryptoCurrency
  toCurrency : Option CryptoCurrency
deriving DecidableEq, Repr

/-- The handler `handleSwapCurrencies` (CurrencySwapForm.tsx lines 210–214). -/
def handleSwapCurrencies (s : SwapState) : SwapState :=
  { fromCurrency := s.toCurrency, toCurrency := s.fromCurrency }

/-- The regex `^\d*\.?\d*$`: digits, at most one decimal point, digits. -/
def matchesAmountPattern (s : String) : Bool :=
  match s.toList.dropWhile Char.isDigit with
  | [] => true
  | '.' :: rest => rest.all Char.isDigit
  | _ => false

/-- The handler `handleAmountChange` (CurrencySwapForm.tsx lines 184–189): the new input
value replaces `amountToSend` only when it matches the pattern (or is
empty, which the pattern also accepts). -/
def handleAmountChange (amountToSend : String) (value : String) : String :=
  if matchesAmountPattern value || value == "" then value else amountToSend

/-- A Bitcoin entity as the loader would derive it from a 50000-USD quote. -/
def btcC : CryptoCurrency := { code := "BTC", name := "BTC", priceInUSD := 50000 }

/-- An Ether entity as the loader would derive it from a 2500-USD quote. -/
def ethC : CryptoCurrency := { code := "ETH", name := "ETH", priceInUSD := 2500 }

/-- The price map of the spec's concrete scenario `{BTC: 50000, ETH: 2500}`. -/
def demoPrices : List (String × ℚ) := [("BTC", 50000), ("ETH", 2500)]

/-- A small raw feed with a duplicate code and a non-positive quote. -/
def demoRaw : List RawCryptoData :=
  [{ currency := "BTC", date := "d1", price := 48000 },
   { currency := "ETH", date := "d1", price := 2500 },
   { currency := "BTC", date := "d2", price := 50000 },
   { currency := "DOGE", date := "d1", price := -3 }]

/-! ### Helper lemmas -/

lemma parseFloat_of_parts (s : String) (p : NumParts) (h : parseParts s = some p) :
    parseFloat s = some (partsVal p) := by
  simp [parseFloat, h]

lemma parseFloat_two : parseFloat "2" = some 2 := by
  rw [parseFloat_of_parts "2" ⟨false, 2, 0, false, 0⟩ (by decide)]
  norm_num [partsVal]

lemma parseFloat_zero : parseFloat "0" = some 0 := by
  rw [parseFloat_of_parts "0" ⟨false, 0, 0, false, 0⟩ (by decide)]
  norm_num [partsVal]

lemma parseFloat_abc : parseFloat "abc" = none := by
  simp [parseFloat, show parseParts "abc" = none from by decide]

lemma parseFloat_empty : parseFloat "" = none := by
  simp [parseFloat, show parseParts "" = none from by decide]

lemma parseFloat_1e13 : parseFloat "1e13" = some 10000000000000 := by
  rw [parseFloat_of_parts "1e13" ⟨false, 1, 0, false, 13⟩ (by decide)]
  norm_num [partsVal]

lemma mapGet_mem {m : List (String × ℚ)} {k : String} {v : ℚ}
    (h : mapGet m k = some v) : (k, v) ∈ m := by
  rw [mapGet] at h
  rcases hf : m.find? (fun p => p.1 = k) with _ | p
  · rw [hf] at h; cases h
  · rw [hf] at h
    have hp := List.find?_some hf
    have hm := List.mem_of_find?_eq_some hf
    simp only [decide_eq_true_eq] at hp
    simp only [Option.map_some'] at h
    have : p = (k, v) := by
      rcases p with ⟨k', v'⟩
      cases h; cases hp; rfl
    rwa [this] at hm

lemma calc_success (s : String) (f t : CryptoCurrency) (m : List (String × ℚ))
    (a pf pt : ℚ) (hs : parseFloat s = some a) (ha : 0 < a) (hmax : a ≤ MAX_AMOUNT)
    (hc : f.code ≠ t.code) (hf : mapGet m f.code = some pf) (ht : mapGet m t.code = some pt)
    (hpf : pf ≠ 0) (hpt : pt ≠ 0) :
    calculateAmountToReceive s (some f) (some t) m =
      { amountToReceive := toFixed8 (a * (pt / pf)), exchangeRate := pt / pf } := by
  simp only [calculateAmountToReceive, hs]
  rw [if_pos ⟨ha, hmax, hc⟩]
  simp only [hf, ht]
  rw [if_pos ⟨hpf, hpt⟩]

lemma calc_fail (s : String) (fc tc : Option CryptoCurrency) (m : List (String × ℚ))
    (h : ∀ f t a pf pt, fc = some f → tc = some t → parseFloat s = some a →
         0 < a → a ≤ MAX_AMOUNT → f.code ≠ t.code →
         mapGet m f.code = some pf → mapGet m t.code = some pt → pf = 0 ∨ pt = 0) :
    calculateAmountToReceive s fc tc m = { amountToReceive := "0.00", exchangeRate := 0 } := by
  rcases fc with _ | f
  · simp [calculateAmountToReceive]
  rcases tc with _ | t
  · simp [calculateAmountToReceive]
  rcases hpa : parseFloat s with _ | a
  · simp [calculateAmountToReceive, hpa]
  simp only [calculateAmountToReceive, hpa]
  by_cases hcond : 0 < a ∧ a ≤ MAX_AMOUNT ∧ f.code ≠ t.code
  · rw [if_pos hcond]
    rcases hf : mapGet m f.code with _ | pf
    · simp
    rcases ht : mapGet m t.code with _ | pt
    · simp
    have hz : pf = 0 ∨ pt = 0 :=
      h f t a pf pt rfl rfl hpa hcond.1 hcond.2.1 hcond.2.2 hf ht
    have hne : ¬(pf ≠ 0 ∧ pt ≠ 0) := by
      rintro ⟨h1, h2⟩
      rcases hz with hz | hz
      · exact h1 hz
      · exact h2 hz
    simp only [if_neg hne]
  · rw [if_neg hcond]

/-! ### Claims C1–C4: the swap calculator -/

/-- C1: for every amount string parsing to a positive `a ≤ 10^12`, selected
currencies with distinct codes, and positive mapped prices `pf`, `pt`, the
calculator sets the exchange rate to `pt / pf` and the receive amount to
`(a * (pt / pf))` formatted to exactly 8 decimal places. -/
theorem c1_calc_rate_and_receive (s : String) (f t : CryptoCurrency)
    (m : List (String × ℚ)) (a pf pt : ℚ)
    (hs : parseFloat s = some a) (ha : 0 < a) (hmax : a ≤ MAX_AMOUNT)
    (hc : f.code ≠ t.code) (hf : mapGet m f.code = some pf) (ht : mapGet m t.code = some pt)
    (hpf : 0 < pf) (hpt : 0 < pt) :
    (calculateAmountToReceive s (some f) (some t) m).exchangeRate = pt / pf ∧
    (calculateAmountToReceive s (some f) (some t) m).amountToReceive =
      toFixed8 (a * (pt / pf)) := by
  rw [calc_success s f t m a pf pt hs ha hmax hc hf ht hpf.ne' hpt.ne']
  exact ⟨rfl, rfl⟩

/-- Witness for C1: amount "2", BTC→ETH, prices {BTC: 50000, ETH: 2500}. -/
theorem c1_calc_rate_and_receive_witness :
    (calculateAmountToReceive "2" (some btcC) (some ethC) demoPrices).exchangeRate =
        2500 / 50000 ∧
    (calculateAmountToReceive "2" (some btcC) (some ethC) demoPrices).amountToReceive =
        toFixed8 (2 * (2500 / 50000)) :=
  c1_calc_rate_and_receive "2" btcC ethC demoPrices 2 50000 2500 parseFloat_two
    (by norm_num) (by norm_num [MAX_AMOUNT]) (by decide) (by decide) (by decide)
    (by norm_num) (by norm_num)

/-- C2 counterexample: with both currencies selected, distinct, and
positively priced but send amount "0", the code leaves the exchange rate
at 0, while the claimed invariant (stated with no condition on the amount)
demands `priceOf(to)/priceOf(from) = 2500/50000 ≠ 0`. -/
theorem c2_counterexample :
    (calculateAmountToReceive "0" (some btcC) (some ethC) demoPrices).exchangeRate = 0 ∧
    mapGet demoPrices btcC.code = some 50000 ∧
    mapGet demoPrices ethC.code = some 2500 ∧
    (0 : ℚ) < 50000 ∧ (0 : ℚ) < 2500 ∧ btcC.code ≠ ethC.code ∧
    (2500 : ℚ) / 50000 ≠ 0 := by
  refine ⟨?_, by decide, by decide, by norm_num, by norm_num, by decide, by norm_num⟩
  rw [calc_fail]
  intro f t a pf pt _ _ hpa h0 _ _ _ _
  rw [parseFloat_zero] at hpa
  injection hpa with h
  rw [← h] at h0
  exact absurd h0 (lt_irrefl 0)

/-- C2 (amended): over a price map whose entries are all positive (as the
loader guarantees), the invariant holds once the send amount is also
required to parse to a value in `(0, 10^12]`: under all the conditions the
exchange rate is `priceOf(to)/priceOf(from)`, and in every other state the
calculator yields exchange rate 0 and receive amount "0.00". -/
theorem c2_amended_invariant (s : String) (fc tc : Option CryptoCurrency)
    (m : List (String × ℚ)) (hm : ∀ kv ∈ m, 0 < kv.2) :
    (∀ f t a pf pt, fc = some f → tc = some t → f.code ≠ t.code →
       parseFloat s = some a → 0 < a → a ≤ MAX_AMOUNT →
       mapGet m f.code = some pf → mapGet m t.code = some pt →
       (calculateAmountToReceive s fc tc m).exchangeRate = pt / pf) ∧
    ((¬ ∃ f t a, fc = some f ∧ tc = some t ∧ f.code ≠ t.code ∧
        parseFloat s = some a ∧ 0 < a ∧ a ≤ MAX_AMOUNT ∧
        (mapGet m f.code).isSome = true ∧ (mapGet m t.code).isSome = true) →
      calculateAmountToReceive s fc tc m =
        { amountToReceive := "0.00", exchangeRate := 0 }) := by
  constructor
  · intro f t a pf pt hfc htc hcode hpa h0 hle hf ht
    subst hfc; subst htc
    have hpf : 0 < pf := hm _ (mapGet_mem hf)
    have hpt : 0 < pt := hm _ (mapGet_mem ht)
    rw [calc_success s f t m a pf pt hpa h0 hle hcode hf ht hpf.ne' hpt.ne']
  · intro hnot
    apply calc_fail
    intro f t a pf pt hfc htc hpa h0 hle hcode hf ht
    exact absurd ⟨f, t, a, hfc, htc, hcode, hpa, h0, hle,
      by rw [hf]; rfl, by rw [ht]; rfl⟩ hnot

/-- Witness for C2 (amended): at send amount "0" the calculator resets both
outputs even though currencies are selected, distinct and priced. -/
theorem c2_amended_invariant_witness :
    calculateAmountToReceive "0" (some btcC) (some ethC) demoPrices =
      { amountToReceive := "0.00", exchangeRate := 0 } :=
  (c2_amended_invariant "0" (some btcC) (some ethC) demoPrices (by decide)).2
    (by
      rintro ⟨f, t, a, _, _, _, hpa, h0, _, _, _⟩
      rw [parseFloat_zero] at hpa
      injection hpa with h
      rw [← h] at h0
      exact absurd h0 (lt_irrefl 0))

/-- C3: evaluation of the code on the spec's concrete scenario: prices
{BTC: 50000, ETH: 2500}, amount "2", from BTC to ETH.  The code multiplies
by `toPrice / fromPrice = 2500 / 50000 = 1/20` and produces rate `1/20`
and receive string "0.10000000" — not the claimed rate 20 and
"40.00000000", which is what converting 2 BTC (100000 USD) into
2500-USD ETH actually yields. -/
theorem c3_code_result :
    calculateAmountToReceive "2" (some btcC) (some ethC) demoPrices =
      { amountToReceive := "0.10000000", exchangeRate := 1 / 20 } ∧
    (1 / 20 : ℚ) ≠ 20 ∧ "0.10000000" ≠ "40.00000000" := by
  refine ⟨?_, by norm_num, by decide⟩
  rw [calc_success "2" btcC ethC demoPrices 2 50000 2500 parseFloat_two (by norm_num)
    (by norm_num [MAX_AMOUNT]) (by decide) (by decide) (by decide) (by norm_num)
    (by norm_num)]
  have h1 : (2 : ℚ) * (2500 / 50000) = 1 / 10 := by norm_num
  have h2 : (2500 : ℚ) / 50000 = 1 / 20 := by norm_num
  rw [h1, h2, toFixed8]
  rw [show (⌊(1 / 10 : ℚ) * 100000000 + 1 / 2⌋ : ℤ) = 10000000 by
    rw [Int.floor_eq_iff]
    norm_num]
  congr 1

/-- C4: over a positively-priced map, whenever any precondition fails — the
amount does not parse into `(0, 10^12]`, a currency is unselected, the two
codes are equal, or a selected currency has no positive price in the map —
the calculator returns receive string "0.00" and exchange rate 0. -/
theorem c4_precondition_failure (s : String) (fc tc : Option CryptoCurrency)
    (m : List (String × ℚ)) (hm : ∀ kv ∈ m, 0 < kv.2)
    (hfail :
      (∀ a, parseFloat s = some a → a ≤ 0 ∨ MAX_AMOUNT < a) ∨
      fc = none ∨ tc = none ∨
      (∃ f t, fc = some f ∧ tc = some t ∧ f.code = t.code) ∨
      (∃ f, fc = some f ∧ ∀ p, mapGet m f.code = some p → p ≤ 0) ∨
      (∃ t, tc = some t ∧ ∀ p, mapGet m t.code = some p → p ≤ 0)) :
    calculateAmountToReceive s fc tc m =
      { amountToReceive := "0.00", exchangeRate := 0 } := by
  apply calc_fail
  intro f t a pf pt hfc htc hpa h0 hle hcode hf ht
  rcases hfail with hA | hF | hT | hEq | hPF | hPT
  · rcases hA a hpa with h | h
    · exact absurd h0 (not_lt.mpr h)
    · exact absurd hle (not_le.mpr h)
  · rw [hfc] at hF; cases hF
  · rw [htc] at hT; cases hT
  · rcases hEq with ⟨f', t', hf', ht', heq⟩
    rw [hfc] at hf'; rw [htc] at ht'
    injection hf' with hf'; injection ht' with ht'
    rw [← hf', ← ht'] at heq
    exact absurd heq hcode
  · rcases hPF with ⟨f', hf', hnp⟩
    rw [hfc] at hf'; injection hf' with hf'
    rw [← hf'] at hnp
    exact absurd (hm _ (mapGet_mem hf)) (not_lt.mpr (hnp pf hf))
  · rcases hPT with ⟨t', ht', hnp⟩
    rw [htc] at ht'; injection ht' with ht'
    rw [← ht'] at hnp
    exact absurd (hm _ (mapGet_mem ht)) (not_lt.mpr (hnp pt ht))

/-- Witness for C4: the non-numeric amount "abc" yields "0.00" and rate 0. -/
theorem c4_precondition_failure_witness :
    calculateAmountToReceive "abc" (some btcC) (some ethC) demoPrices =
      { amountToReceive := "0.00", exchangeRate := 0 } :=
  c4_precondition_failure "abc" (some btcC) (some ethC) demoPrices (by decide)
    (Or.inl (fun a ha => by rw [parseFloat_abc] at ha; cases ha))

/-! ### Claims C5–C7: the form validator -/

lemma amountRes_fst (s : String) :
    (if s = "" then ("Amount is required.", false)
     else
       match parseFloat s with
       | none => ("Please enter a positive amount.", false)
       | some amount =>
         if amount ≤ 0 then ("Please enter a positive amount.", false)
         else if MAX_AMOUNT < amount then (ceilingMessage, false)
         else ("", true)).1 =
    (if s = "" then "Amount is required."
     else
       match parseFloat s with
       | none => "Please enter a positive amount."
       | some a =>
         if a ≤ 0 then "Please enter a positive amount."
         else if MAX_AMOUNT < a then ceilingMessage
         else "") := by
  by_cases hs : s = ""
  · simp [hs]
  · simp only [if_neg hs]
    rcases parseFloat s with _ | a
    · rfl
    · by_cases h0 : a ≤ 0
      · simp [h0]
      · by_cases hM : MAX_AMOUNT < a
        · simp [h0, hM]
        · simp [h0, hM]

lemma validateForm_amountError (s : String) (fc tc : Option CryptoCurrency) :
    (validateForm s fc tc).amountError =
      if s = "" then "Amount is required."
      else
        match parseFloat s with
        | none => "Please enter a positive amount."
        | some a =>
          if a ≤ 0 then "Please enter a positive amount."
          else if MAX_AMOUNT < a then ceilingMessage
          else "" := by
  rcases fc with _ | f <;> rcases tc with _ | t
  · exact amountRes_fst s
  · exact amountRes_fst s
  · exact amountRes_fst s
  · by_cases h : f.code = t.code
    · simp only [validateForm, if_pos h]
      exact amountRes_fst s
    · simp only [validateForm, if_neg h]
      exact amountRes_fst s

/-- C5: on every amount string the validator's amount error is exactly
"Amount is required." for the empty string, "Please enter a positive
amount." for a non-numeric or non-positive amount, the ceiling message
above `10^12`, and empty otherwise — the cases taken in that order are
mutually exclusive and exhaustive. -/
theorem c5_amount_error_cases (s : String) (fc tc : Option CryptoCurrency) :
    (s = "" → (validateForm s fc tc).amountError = "Amount is required.") ∧
    (s ≠ "" → parseFloat s = none →
      (validateForm s fc tc).amountError = "Please enter a positive amount.") ∧
    (∀ a, parseFloat s = some a → a ≤ 0 →
      (validateForm s fc tc).amountError = "Please enter a positive amount.") ∧
    (∀ a, parseFloat s = some a → MAX_AMOUNT < a →
      (validateForm s fc tc).amountError = ceilingMessage) ∧
    (∀ a, parseFloat s = some a → 0 < a → a ≤ MAX_AMOUNT →
      (validateForm s fc tc).amountError = "") := by
  have hne : ∀ a : ℚ, parseFloat s = some a → s ≠ "" := by
    intro a hp h
    rw [h, parseFloat_empty] at hp
    cases hp
  refine ⟨?_, ?_, ?_, ?_, ?_⟩
  · intro h
    rw [validateForm_amountError, if_pos h]
  · intro h hp
    rw [validateForm_amountError, if_neg h, hp]
  · intro a hp ha
    rw [validateForm_amountError, if_neg (hne a hp), hp]
    simp only [if_pos ha]
  · intro a hp ha
    have h0 : ¬ a ≤ 0 := by
      apply not_le.mpr
      calc (0 : ℚ) < MAX_AMOUNT := by norm_num [MAX_AMOUNT]
        _ < a := ha
    rw [validateForm_amountError, if_neg (hne a hp), hp]
    simp only [if_neg h0, if_pos ha]
  · intro a hp h0 hle
    rw [validateForm_amountError, if_neg (hne a hp), hp]
    simp only [if_neg (not_le.mpr h0), if_neg (not_lt.mpr hle)]

/-- Witness for C5: the empty amount, "abc", "0", "1e13" and "2". -/
theorem c5_amount_error_cases_witness :
    (validateForm "" none none).amountError = "Amount is required." ∧
    (validateForm "abc" none none).amountError = "Please enter a positive amount." ∧
    (validateForm "0" none none).amountError = "Please enter a positive amount." ∧
    (validateForm "1e13" none none).amountError = ceilingMessage ∧
    (validateForm "2" none none).amountError = "" :=
  ⟨(c5_amount_error_cases "" none none).1 rfl,
   (c5_amount_error_cases "abc" none none).2.1 (by decide) parseFloat_abc,
   (c5_amount_error_cases "0" none none).2.2.1 0 parseFloat_zero le_rfl,
   (c5_amount_error_cases "1e13" none none).2.2.2.1 10000000000000 parseFloat_1e13
     (by norm_num [MAX_AMOUNT]),
   (c5_amount_error_cases "2" none none).2.2.2.2 2 parseFloat_two (by norm_num)
     (by norm_num [MAX_AMOUNT])⟩

/-- C6: when both currencies are selected and share a code, the cross-field
check overwrites both currency error fields (cleared by the presence
checks) with "Currencies cannot be the same." and the form is invalid. -/
theorem c6_same_currency_errors (s : String) (f t : CryptoCurrency)
    (h : f.code = t.code) :
    (validateForm s (some f) (some t)).fromCurrencyError =
        "Currencies cannot be the same." ∧
    (validateForm s (some f) (some t)).toCurrencyError =
        "Currencies cannot be the same." ∧
    (validateForm s (some f) (some t)).isValid = false := by
  simp only [validateForm]
  rw [if_pos h]
  exact ⟨rfl, rfl, rfl⟩

/-- Witness for C6: selecting BTC on both sides. -/
theorem c6_same_currency_errors_witness :
    (validateForm "2" (some btcC) (some btcC)).fromCurrencyError =
        "Currencies cannot be the same." ∧
    (validateForm "2" (some btcC) (some btcC)).toCurrencyError =
        "Currencies cannot be the same." ∧
    (validateForm "2" (some btcC) (some btcC)).isValid = false :=
  c6_same_currency_errors "2" btcC btcC rfl

/-- C7: on every state, the aggregate submit-enabling predicate
`isFormValid`, reading the error strings the validator computed for that
same state, agrees with the validator's own boolean verdict. -/
theorem c7_validity_equivalence (s : String) (fc tc : Option CryptoCurrency) :
    isFormValid s fc tc (validateForm s fc tc).amountError
      (validateForm s fc tc).fromCurrencyError
      (validateForm s fc tc).toCurrencyError =
    (validateForm s fc tc).isValid := by
  rcases fc with _ | f <;> rcases tc with _ | t
  · simp [isFormValid, validateForm]
  · simp [isFormValid, validateForm]
  · simp [isFormValid, validateForm]
  · by_cases hcode : f.code = t.code
    · simp [isFormValid, validateForm, hcode]
    · simp only [isFormValid, validateForm, if_neg hcode]
      by_cases hs : s = ""
      · subst hs
        simp [parseFloat_empty]
      · rcases hp : parseFloat s with _ | a
        · simp [hp, if_neg hs]
        · simp only [hp, if_neg hs]
          by_cases h0 : a ≤ 0
          · have hd : decide (0 < a) = false := decide_eq_false (not_lt.mpr h0)
            simp [if_pos h0, hd]
          · by_cases hc : MAX_AMOUNT < a
            · have hd : decide (a ≤ MAX_AMOUNT) = false :=
                decide_eq_false (not_le.mpr hc)
              simp [if_neg h0, if_pos hc, hd, ceilingMessage]
            · have hd1 : decide (0 < a) = true := decide_eq_true (not_le.mp h0)
              have hd2 : decide (a ≤ MAX_AMOUNT) = true :=
                decide_eq_true (not_lt.mp hc)
              simp [if_neg h0, if_neg hc, hd1, hd2, hcode]

/-! ### Claim C8: the price loader -/

lemma getLast?_cons_or {α : Type} (a : α) (l : List α) :
    (a :: l).getLast? = Option.or l.getLast? (some a) := by
  induction l generalizing a with
  | nil => rfl
  | cons b l ih =>
    rw [List.getLast?_cons_cons, ih b, Option.or_assoc, Option.or_some]

lemma option_map_or {α β : Type} (f : α → β) (a b : Option α) :
    (Option.or a b).map f = Option.or (a.map f) (b.map f) := by
  cases a <;> rfl

lemma mapGet_cons (q : String × ℚ) (m : List (String × ℚ)) (k : String) :
    mapGet (q :: m) k = if q.1 = k then some q.2 else mapGet m k := by
  by_cases h : q.1 = k
  · simp [mapGet, List.find?_cons_of_pos, h]
  · simp [mapGet, List.find?_cons_of_neg, h]

lemma mapGet_append (m₁ m₂ : List (String × ℚ)) (k : String) :
    mapGet (m₁ ++ m₂) k = Option.or (mapGet m₁ k) (mapGet m₂ k) := by
  rw [mapGet, mapGet, mapGet, List.find?_append, option_map_or]

lemma mapGet_map_overwrite {k : String} {v : ℚ} (m : List (String × ℚ))
    (h : m.any (fun p => p.1 = k) = true) :
    mapGet (m.map (fun p => if p.1 = k then (k, v) else p)) k = some v := by
  induction m with
  | nil => cases h
  | cons q m ih =>
    by_cases hq : q.1 = k
    · simp [List.map_cons, if_pos hq, mapGet_cons]
    · have h' : m.any (fun p => p.1 = k) = true := by
        simpa [List.any_cons, hq] using h
      rw [List.map_cons, if_neg hq, mapGet_cons, if_neg hq]
      exact ih h'

lemma mapGet_map_ne {k k' : String} {v : ℚ} (m : List (String × ℚ)) (hne : k' ≠ k) :
    mapGet (m.map (fun p => if p.1 = k then (k, v) else p)) k' = mapGet m k' := by
  induction m with
  | nil => rfl
  | cons q m ih =>
    by_cases hq : q.1 = k
    · rw [List.map_cons, if_pos hq, mapGet_cons, mapGet_cons, if_neg (by simp [hq]; exact fun h => hne h.symm),
        if_neg (by rw [hq]; exact fun h => hne h.symm)]
      exact ih
    · rw [List.map_cons, if_neg hq, mapGet_cons, mapGet_cons]
      by_cases hq' : q.1 = k'
      · rw [if_pos hq', if_pos hq']
      · rw [if_neg hq', if_neg hq']
        exact ih

lemma mapGet_mapSet (m : List (String × ℚ)) (k : String) (v : ℚ) (k' : String) :
    mapGet (mapSet m k v) k' = if k' = k then some v else mapGet m k' := by
  rw [mapSet]
  by_cases hany : m.any (fun p => p.1 = k) = true
  · rw [if_pos hany]
    by_cases hk : k' = k
    · subst hk
      rw [if_pos rfl]
      exact mapGet_map_overwrite m hany
    · rw [if_neg hk]
      exact mapGet_map_ne m hk
  · rw [if_neg hany, mapGet_append]
    by_cases hk : k' = k
    · subst hk
      have hnone : mapGet m k' = none := by
        rw [mapGet, List.find?_eq_none.mpr, Option.map_none']
        intro x hx
        simp only [decide_eq_true_eq]
        intro hxk
        exact hany (List.any_eq_true.mpr ⟨x, hx, by simp [hxk]⟩)
      rw [hnone, Option.none_or, if_pos rfl, mapGet_cons, if_pos rfl]
    · rw [if_neg hk]
      have hnone : mapGet [(k, v)] k' = none := by
        rw [mapGet_cons, if_neg (fun h => hk h.symm)]
        rfl
      rw [hnone, Option.or_none]

lemma buildAux (code : String) (raw : List RawCryptoData) :
    ∀ m : List (String × ℚ),
      mapGet (raw.foldl (fun m d => if 0 < d.price then mapSet m d.currency d.price else m) m)
          code =
        Option.or
          (((raw.filter (fun r => decide (r.currency = code ∧ 0 < r.price))).getLast?).map
            RawCryptoData.price)
          (mapGet m code) := by
  induction raw with
  | nil =>
    intro m
    simp
  | cons d raw ih =>
    intro m
    rw [List.foldl_cons, List.filter_cons]
    by_cases hp : 0 < d.price
    · by_cases hc : d.currency = code
      · rw [if_pos hp, ih (mapSet m d.currency d.price),
          if_pos (by simp [hc, hp]), getLast?_cons_or, option_map_or, Option.or_assoc,
          Option.map_some', Option.or_some, mapGet_mapSet, if_pos hc.symm]
      · rw [if_pos hp, ih (mapSet m d.currency d.price),
          if_neg (by simp [hc]), mapGet_mapSet, if_neg (fun h => hc h.symm)]
    · rw [if_neg hp, ih m, if_neg (by simp [hp])]

lemma mapSet_keys_any (m : List (String × ℚ)) (k : String) (v : ℚ)
    (h : m.any (fun p => p.1 = k) = true) :
    (mapSet m k v).map Prod.fst = m.map Prod.fst := by
  rw [mapSet, if_pos h, List.map_map]
  apply List.map_congr_left
  intro p _
  by_cases hq : p.1 = k
  · simp [Function.comp, hq]
  · simp [Function.comp, hq]

lemma mapSet_keys_not (m : List (String × ℚ)) (k : String) (v : ℚ)
    (h : ¬ m.any (fun p => p.1 = k) = true) :
    (mapSet m k v).map Prod.fst = m.map Prod.fst ++ [k] := by
  rw [mapSet, if_neg h, List.map_append]
  rfl

lemma buildKeysNodupAux (raw : List RawCryptoData) :
    ∀ m : List (String × ℚ), (m.map Prod.fst).Nodup →
      ((raw.foldl (fun m d => if 0 < d.price then mapSet m d.currency d.price else m) m).map
        Prod.fst).Nodup := by
  induction raw with
  | nil => exact fun m h => h
  | cons d raw ih =>
    intro m h
    rw [List.foldl_cons]
    by_cases hp : 0 < d.price
    · rw [if_pos hp]
      apply ih
      by_cases hany : m.any (fun p => p.1 = d.currency) = true
      · rw [mapSet_keys_any m _ _ hany]
        exact h
      · rw [mapSet_keys_not m _ _ hany]
        have hk : d.currency ∉ m.map Prod.fst := by
          intro hmem
          rcases List.mem_map.mp hmem with ⟨p, hp', he⟩
          exact hany (List.any_eq_true.mpr ⟨p, hp', by simp [he]⟩)
        rw [List.nodup_append]
        exact ⟨h, List.nodup_singleton _, by simpa using hk⟩
    · rw [if_neg hp]
      exact ih m h

lemma mapGet_of_mem_nodup (m : List (String × ℚ)) (k : String) (v : ℚ)
    (hnd : (m.map Prod.fst).Nodup) (hmem : (k, v) ∈ m) :
    mapGet m k = some v := by
  induction m with
  | nil => cases hmem
  | cons q m ih =>
    rw [mapGet_cons]
    rcases List.mem_cons.mp hmem with he | hm
    · rw [← he]
      simp
    · rw [List.map_cons, List.nodup_cons] at hnd
      have hq : q.1 ≠ k := by
        intro hqk
        exact hnd.1 (hqk ▸ List.mem_map.mpr ⟨(k, v), hm, rfl⟩)
      rw [if_neg hq]
      exact ih hnd.2 hm

lemma processed_codes (m : List (String × ℚ)) :
    (processedCurrencies m).map CryptoCurrency.code = m.map Prod.fst := by
  rw [processedCurrencies, List.map_map]
  rfl

/-- C8: the loader's price map holds exactly the codes occurring in some
record with positive price, its value for a code is the price of the last
such record, and every derived entity has `name` equal to its code and
`priceInUSD` equal to the mapped price, one entity per distinct code. -/
theorem c8_price_loader (raw : List RawCryptoData) :
    (∀ code, mapGet (buildPricesMap raw) code =
      ((raw.filter (fun r => decide (r.currency = code ∧ 0 < r.price))).getLast?).map
        RawCryptoData.price) ∧
    ((processedCurrencies (buildPricesMap raw)).map CryptoCurrency.code).Nodup ∧
    (∀ e ∈ processedCurrencies (buildPricesMap raw),
      e.name = e.code ∧ mapGet (buildPricesMap raw) e.code = some e.priceInUSD) := by
  refine ⟨?_, ?_, ?_⟩
  · intro code
    rw [buildPricesMap, buildAux code raw []]
    rw [show mapGet [] code = none from rfl, Option.or_none]
  · rw [processed_codes]
    exact buildKeysNodupAux raw [] (by simp)
  · intro e he
    rcases List.mem_map.mp he with ⟨p, hp, rfl⟩
    refine ⟨rfl, ?_⟩
    exact mapGet_of_mem_nodup _ p.1 p.2 (buildKeysNodupAux raw [] (by simp)) hp

/-- Witness for C8 on a concrete feed with a duplicate BTC record and a
negative DOGE record: BTC keeps the last positive price, the entity names
equal their codes, and DOGE is absent. -/
theorem c8_price_loader_witness :
    mapGet (buildPricesMap demoRaw) "BTC" =
      ((demoRaw.filter (fun r => decide (r.currency = "BTC" ∧ 0 < r.price))).getLast?).map
        RawCryptoData.price ∧
    CryptoCurrency.name { code := "BTC", name := "BTC", priceInUSD := 50000 } = "BTC" ∧
    mapGet (buildPricesMap demoRaw) "BTC" = some 50000 := by
  have h := c8_price_loader demoRaw
  have hmem := h.2.2 { code := "BTC", name := "BTC", priceInUSD := 50000 } (by decide)
  exact ⟨h.1 "BTC", hmem.1, hmem.2⟩

/-! ### Claims C9–C10: swap toggle and amount-input filter -/

/-- C9: the swap-direction toggle is involutive on the currency selection,
for every state including empty selections. -/
theorem c9_swap_involutive (s : SwapState) :
    handleSwapCurrencies (handleSwapCurrencies s) = s ∧
    (handleSwapCurrencies (handleSwapCurrencies s)).fromCurrency = s.fromCurrency ∧
    (handleSwapCurrencies (handleSwapCurrencies s)).toCurrency = s.toCurrency :=
  ⟨rfl, rfl, rfl⟩

lemma matches_empty : matchesAmountPattern "" = true := by decide

lemma matches_handleAmountChange (old v : String)
    (h : matchesAmountPattern old = true) :
    matchesAmountPattern (handleAmountChange old v) = true := by
  rw [handleAmountChange]
  by_cases hc : (matchesAmountPattern v || v == "") = true
  · rw [if_pos hc]
    rw [Bool.or_eq_true] at hc
    rcases hc with hv | hv
    · exact hv
    · rw [beq_iff_eq] at hv
      rw [hv]
      exact matches_empty
  · rw [if_neg hc]
    exact h

lemma foldl_matches (evs : List String) :
    ∀ old : String, matchesAmountPattern old = true →
      matchesAmountPattern (evs.foldl handleAmountChange old) = true := by
  induction evs with
  | nil => exact fun old h => h
  | cons e evs ih =>
    intro old h
    rw [List.foldl_cons]
    exact ih _ (matches_handleAmountChange old e h)

/-- C10: every amount-input change either keeps `amountToSend` or replaces
it with the new value; a replacement with a different value only happens
when the new value matches `^\d*\.?\d*$`; hence any event sequence starting
from a matching value leaves a matching value. -/
theorem c10_amount_input_filter (old v : String) (evs : List String) :
    (handleAmountChange old v = old ∨ handleAmountChange old v = v) ∧
    (handleAmountChange old v ≠ old → matchesAmountPattern v = true) ∧
    (matchesAmountPattern old = true →
      matchesAmountPattern (evs.foldl handleAmountChange old) = true) := by
  refine ⟨?_, ?_, foldl_matches evs old⟩
  · rw [handleAmountChange]
    by_cases hc : (matchesAmountPattern v || v == "") = true
    · rw [if_pos hc]
      exact Or.inr rfl
    · rw [if_neg hc]
      exact Or.inl rfl
  · intro hne
    by_cases hc : (matchesAmountPattern v || v == "") = true
    · rw [Bool.or_eq_true] at hc
      rcases hc with hv | hv
      · exact hv
      · rw [beq_iff_eq] at hv
        rw [hv]
        exact matches_empty
    · rw [handleAmountChange, if_neg hc] at hne
      exact absurd rfl hne

/-- Witness for C10: the rejected edit "1bc" keeps the old value "100", and
a concrete event sequence containing a rejected edit preserves the
pattern. -/
theorem c10_amount_input_filter_witness :
    (handleAmountChange "100" "1bc" = "100" ∨ handleAmountChange "100" "1bc" = "1bc") ∧
    matchesAmountPattern (["2", "2.", "2.5", "abc"].foldl handleAmountChange "100") = true :=
  ⟨(c10_amount_input_filter "100" "1bc" []).1,
   (c10_amount_input_filter "100" "2" ["2", "2.", "2.5", "abc"]).2.2 (by decide)⟩
